import Mathlib

/-!
Verification of the chanels-checker repository (a channel liveness checker).

The development shallowly embeds the JavaScript sources:
  src/unnamed/part_001 (main variant: catalog + down-log + M3U playlist),
  src/unnamed/part_000 and src/analizarCanales.js (same prober, fewer sinks).

Modelling conventions:
  - JS strings are lists of characters (List Char); String.trim and
    String.split behaviour is embedded with explicit recursive functions.
  - The HTTP client (axios, an external collaborator of the spec) is an
    oracle of type List Char -> NetOutcome: a GET either completes with a
    status code and a text body, or throws a transport error (DNS failure,
    refused connection, timeout, oversized body, invalid URL are all
    transport errors at this boundary).
  - JS dynamic values that a channel field can hold are JsValue
    (null or undefined, a string, a number).
  - async fan-out: Promise.all resolves positionally, so the array of
    annotated channels is the positional map; the push side effects into
    canalesCaidosLog and canalesM3U happen in probe completion order,
    modelled by an explicit completion order, a permutation of the indices.
  - new Date().toISOString() is modelled by an ambient timestamp parameter.
-/

namespace Canales

/-! ## Embedding of the JS string operations used by checkStreamStatus

JS String.prototype.trim removes whitespace from both ends; the
whitespace class is modelled with Char.isWhitespace.  JS split on a
newline separator yields the segments between newline characters;
splitting the empty string yields a one-element list holding the empty
string. -/

/-- Segments of a character list between newline characters, as produced by
the JS split call in checkStreamStatus. Never empty. -/
def splitLines : List Char → List (List Char)
  | [] => [[]]
  | c :: cs =>
    if c = '\n' then [] :: splitLines cs
    else
      match splitLines cs with
      | [] => [[c]]
      | l :: ls => (c :: l) :: ls

/-- Remove trailing whitespace, half of the JS trim. -/
def dropTrailWs (l : List Char) : List Char :=
  (l.reverse.dropWhile Char.isWhitespace).reverse

/-- The JS String.prototype.trim on a character list: remove leading and
trailing whitespace (order of the two removals is immaterial). -/
def trimChars (l : List Char) : List Char :=
  (dropTrailWs l).dropWhile Char.isWhitespace

/-- A line is blank when every character is whitespace. -/
def lineIsBlank (l : List Char) : Bool := l.all Char.isWhitespace

/-- Modelled from the spec: the first non-blank line of a body, used to
state the content check of Strategy B the way the spec words it. -/
def firstNonBlankLine (body : List Char) : Option (List Char) :=
  (splitLines body).find? (fun l => !lineIsBlank l)

/-- Canonical form shared by the code-side and spec-side first-line checks:
trim of the first newline-free segment after leading whitespace. -/
def canonFirstLine (l : List Char) : List Char :=
  trimChars ((l.dropWhile Char.isWhitespace).takeWhile (fun c => !(c == '\n')))

/-! ## The liveness prober: checkStreamStatus

Embedding of checkStreamStatus from src/unnamed/part_001 lines 15 to 50
(the same function appears in src/unnamed/part_000 lines 14 to 50 and in
src/analizarCanales.js lines 17 to 61; the variants differ only in the
timeout constant, which lives inside the HTTP client boundary). -/

/-- A JS runtime value a channel field or the url argument can hold:
null or undefined, a string, or a number. -/
inductive JsValue where
  | vNull : JsValue
  | vStr : List Char → JsValue
  | vNum : Int → JsValue
deriving DecidableEq, Repr

/-- Outcome of one axios GET at the HTTP-client boundary: either a response
with a status code and a text body, or a thrown transport error (invalid
URL, DNS failure, refused connection, timeout, response over the
maxContentLength cap). -/
inductive NetOutcome where
  | response : Nat → List Char → NetOutcome
  | transportError : List Char → NetOutcome
deriving DecidableEq, Repr

/-- Constant MIN_CONTENT_LENGTH of the sources. -/
def MIN_CONTENT_LENGTH : Nat := 30

/-- The literal the first line is compared with. -/
def extm3uMarker : List Char := "#EXTM3U".toList

/-- Body of the try block after the GET resolved with a response: the
status check, the length check and the header check of checkStreamStatus
(lines 28 to 45 of src/unnamed/part_001). -/
def processResponse (status : Nat) (content : List Char) : Bool :=
  if status < 200 ∨ 300 ≤ status then false
  else if content = [] ∨ content.length < MIN_CONTENT_LENGTH then false
  else
    let contentLines := splitLines (trimChars content)
    if contentLines.length = 0 ∨ trimChars (contentLines.headD []) ≠ extm3uMarker then
      false
    else true

/-- The try block of checkStreamStatus: the axios GET either throws (the
error propagates) or its response is examined. -/
def tryBlock (net : List Char → NetOutcome) (u : List Char) : Except (List Char) Bool :=
  match net u with
  | .response st body => .ok (processResponse st body)
  | .transportError msg => .error msg

/-- checkStreamStatus: the guard on line 16 rejects falsy or non-string
urls before any network access; otherwise the try block runs and the catch
on line 46 converts any thrown error to false. -/
def checkStreamStatus (url : JsValue) (net : List Char → NetOutcome) : Bool :=
  match url with
  | .vNull => false
  | .vNum _ => false
  | .vStr u =>
    if u = [] then false
    else
      match tryBlock net u with
      | .ok b => b
      | .error _ => false

/-- checkStreamStatus with its exception behaviour made explicit: the
value an async caller observes, an Except that would carry a thrown error
out of the call if the catch were missing. -/
def checkStreamStatusE (url : JsValue) (net : List Char → NetOutcome) :
    Except (List Char) Bool :=
  match url with
  | .vNull => .ok false
  | .vNum _ => .ok false
  | .vStr u =>
    if u = [] then .ok false
    else
      match tryBlock net u with
      | .ok b => .ok b
      | .error _ => .ok false

/-- checkStreamStatus instrumented with whether the axios GET was reached:
the second component is true exactly when execution passes the guard and
hands the url to the HTTP client. -/
def checkStreamStatusI (url : JsValue) (net : List Char → NetOutcome) : Bool × Bool :=
  match url with
  | .vNull => (false, false)
  | .vNum _ => (false, false)
  | .vStr u =>
    if u = [] then (false, false)
    else
      match tryBlock net u with
      | .ok b => (b, true)
      | .error _ => (false, true)

/-! ## Data model and pipeline of analizarCanales (src/unnamed/part_001)

A catalog record has id, title, url, optionally icon, possibly a
pre-existing active field, and arbitrary further fields kept in extra so
that the JS object spread can be stated faithfully. -/

/-- One channel record of canales.json. -/
structure Channel where
  id : Int
  title : List Char
  url : JsValue
  icon : Option (List Char)
  active : Option Bool
  extra : List (List Char × JsValue)
deriving DecidableEq, Repr

/-- The object spread on line 111 of src/unnamed/part_001: a copy of the
record with the fresh verdict stored in active; nothing else changes. -/
def annotateChannel (canal : Channel) (isActive : Bool) : Channel :=
  { canal with active := some isActive }

/-- One entry pushed into canalesCaidosLog (lines 100 to 107). -/
structure DownEntry where
  timestamp : List Char
  id : Int
  title : List Char
  url : JsValue
  description : List Char
deriving DecidableEq, Repr

/-- Fixed description string of a down entry (line 106). -/
def downDescription : List Char :=
  "Verificación fallida: No se pudo conectar, timeout, o formato m3u8 inválido.".toList

/-- Build the down entry for an inactive channel. -/
def mkDownEntry (ts : List Char) (canal : Channel) : DownEntry :=
  { timestamp := ts, id := canal.id, title := canal.title, url := canal.url,
    description := downDescription }

/-- How a JS template literal renders a JsValue. -/
def jsValDisplay : JsValue → List Char
  | .vStr s => s
  | .vNull => "null".toList
  | .vNum n => (toString n).toList

/-- How a JS template literal renders a possibly missing string field. -/
def iconDisplay : Option (List Char) → List Char
  | some s => s
  | none => "undefined".toList

/-- The informational line of generarLineaM3U before the newline. -/
def extinfLine (canal : Channel) : List Char :=
  "#EXTINF:-1 tvg-logo=\"".toList ++ iconDisplay canal.icon ++ "\",".toList ++
    canal.title

/-- generarLineaM3U (lines 57 to 64): the EXTINF line, a newline, then the
url rendered by the template literal. -/
def generarLineaM3U (canal : Channel) : List Char :=
  extinfLine canal ++ '\n' :: jsValDisplay canal.url

/-- JS Array.prototype.join with a separator. -/
def joinSep (sep : List Char) : List (List Char) → List Char
  | [] => []
  | [x] => x
  | x :: y :: xs => x ++ sep ++ joinSep sep (y :: xs)

/-- The verdict the fan-out obtains for one channel record. -/
def verdictOf (net : List Char → NetOutcome) (canal : Channel) : Bool :=
  checkStreamStatus canal.url net

/-- The canalesCaidosLog array after all probes settle: entries are pushed
in probe completion order, here an explicit list of input indices. -/
def pushedDownLog (canales : List Channel) (net : List Char → NetOutcome)
    (ts : List Char) (order : List Nat) : List DownEntry :=
  order.filterMap (fun i => (canales.get? i).bind (fun canal =>
    if verdictOf net canal then none else some (mkDownEntry ts canal)))

/-- The canalesM3U array after all probes settle: the original records of
channels probed active, pushed in probe completion order. -/
def pushedM3U (canales : List Channel) (net : List Char → NetOutcome)
    (order : List Nat) : List Channel :=
  order.filterMap (fun i => (canales.get? i).bind (fun canal =>
    if verdictOf net canal then some canal else none))

/-- Promise.all over the mapped probe promises: values are positional, so
the updated catalog is the positional map of the annotation. -/
def canalesActualizadosOf (canales : List Channel)
    (net : List Char → NetOutcome) : List Channel :=
  canales.map (fun canal => annotateChannel canal (verdictOf net canal))

/-- The filter applied on line 164 before rendering the playlist entries:
it reads the pre-existing active field of the collected original records. -/
def writtenM3UEntries (canalesM3U : List Channel) : List Channel :=
  canalesM3U.filter (fun canal => canal.active == some true)

/-- The playlist header written first (line 159). -/
def m3uHeader : List Char := "#EXTM3U\n".toList

/-- The full M3U file content for a given already-filtered entry list
(lines 159 to 168): header, then the rendered entries joined by newlines. -/
def renderM3U (entries : List Channel) : List Char :=
  m3uHeader ++ joinSep ("\n".toList) (entries.map generarLineaM3U)

/-- One rendered block of the down log (lines 134 to 139). -/
def renderLogEntry (e : DownEntry) : List Char :=
  "[".toList ++ e.timestamp ++ "] ID: ".toList ++ (toString e.id).toList ++
    " | TÍTULO: ".toList ++ e.title ++ "\n  URL: ".toList ++ jsValDisplay e.url ++
    "\n  MOTIVO: ".toList ++ e.description

/-- The full down-log file content (lines 134 to 143). -/
def renderLog (ts : List Char) (entries : List DownEntry) : List Char :=
  "--- LOG DE CANALES CAÍDOS GENERADO: ".toList ++ ts ++ " ---\n\n".toList ++
    joinSep ("\n---\n".toList) (entries.map renderLogEntry) ++ "\n".toList

/-- What reading and parsing canales.json produced: either a thrown error
(missing file or malformed JSON, one catch covers both) or the catalog. -/
inductive CatalogSource where
  | failure : List Char → CatalogSource
  | ok : List Channel → CatalogSource

/-- Observable outcome of one run of analizarCanales: the three in-memory
arrays, how many probes were launched, and what each sink received (none
when that file was not written). fatalError records the operator-visible
ERROR FATAL message. -/
structure RunOutput where
  canalesActualizados : List Channel
  canalesCaidosLog : List DownEntry
  canalesM3U : List Channel
  probesLaunched : Nat
  jsonWritten : Bool
  logContent : Option (List Char)
  m3uContent : Option (List Char)
  fatalError : Bool
deriving DecidableEq, Repr

/-- analizarCanales of src/unnamed/part_001 (lines 69 to 183): on a read or
parse failure it reports and returns before any probe; otherwise it fans
out one probe per channel, joins, writes the catalog, writes the down log
when canalesCaidosLog is non-empty, and writes the M3U file when canalesM3U
is non-empty, with the entries filtered on the pre-existing active field. -/
def analizarCanales (src : CatalogSource) (net : List Char → NetOutcome)
    (ts : List Char) (order : List Nat) : RunOutput :=
  match src with
  | .failure _ =>
    { canalesActualizados := [], canalesCaidosLog := [], canalesM3U := [],
      probesLaunched := 0, jsonWritten := false, logContent := none,
      m3uContent := none, fatalError := true }
  | .ok canales =>
    let canalesCaidosLog := pushedDownLog canales net ts order
    let canalesM3U := pushedM3U canales net order
    { canalesActualizados := canalesActualizadosOf canales net,
      canalesCaidosLog := canalesCaidosLog,
      canalesM3U := canalesM3U,
      probesLaunched := canales.length,
      jsonWritten := true,
      logContent :=
        if 0 < canalesCaidosLog.length then some (renderLog ts canalesCaidosLog)
        else none,
      m3uContent :=
        if 0 < canalesM3U.length then some (renderM3U (writtenM3UEntries canalesM3U))
        else none,
      fatalError := false }

/-! ## Concrete fixtures used by witnesses and counterexamples -/

/-- A well-formed stream URL. -/
def goodUrl : List Char := "http://example.com/stream.m3u8".toList

/-- A healthy playlist body: starts with the marker, longer than the
minimum length. -/
def goodBody : List Char :=
  "#EXTM3U\n#EXT-X-VERSION:3\n#EXT-X-TARGETDURATION:10".toList

/-- A network where every GET delivers the healthy playlist. -/
def goodNet : List Char → NetOutcome := fun _ => .response 200 goodBody

/-- A network where every GET throws a refused-connection error. -/
def downNet : List Char → NetOutcome := fun _ => .transportError "ECONNREFUSED".toList

/-- A network where every GET throws an invalid-URL error, what the HTTP
client does when handed a string that does not parse as a URL. -/
def invalidUrlNet : List Char → NetOutcome := fun _ => .transportError "Invalid URL".toList

/-- A fixed run timestamp. -/
def tsLit : List Char := "2026-10-11T00:00:00.000Z".toList

/-- Catalog record 1, without a pre-existing active field. -/
def ch1 : Channel :=
  { id := 1, title := "Canal Uno".toList,
    url := .vStr "http://example.com/uno.m3u8".toList,
    icon := some "http://example.com/uno.png".toList,
    active := none, extra := [] }

/-- Catalog record 2, without a pre-existing active field. -/
def ch2 : Channel :=
  { id := 2, title := "Canal Dos".toList,
    url := .vStr "http://example.com/dos.m3u8".toList,
    icon := some "http://example.com/dos.png".toList,
    active := none, extra := [] }

/-- Catalog record 3, carrying a pre-existing active true field. -/
def m3uChan : Channel :=
  { id := 3, title := "Canal Tres".toList,
    url := .vStr "http://example.com/tres.m3u8".toList,
    icon := some "http://example.com/tres.png".toList,
    active := some true, extra := [] }

/-! ## Generic list lemmas -/

theorem dropWhile_append_of_eq_nil {α : Type} {p : α → Bool} {l₁ l₂ : List α}
    (h : l₁.dropWhile p = []) : (l₁ ++ l₂).dropWhile p = l₂.dropWhile p := by
  induction l₁ with
  | nil => rfl
  | cons a t ih =>
    rw [List.dropWhile_cons] at h
    by_cases hp : p a
    · rw [if_pos hp] at h
      simpa [List.dropWhile_cons, hp] using ih h
    · rw [if_neg hp] at h
      exact absurd h (by simp)

theorem dropWhile_append_of_ne_nil {α : Type} {p : α → Bool} {l₁ l₂ : List α}
    (h : l₁.dropWhile p ≠ []) : (l₁ ++ l₂).dropWhile p = l₁.dropWhile p ++ l₂ := by
  induction l₁ with
  | nil => exact absurd rfl h
  | cons a t ih =>
    by_cases hp : p a
    · rw [List.dropWhile_cons, if_pos hp] at h
      simp only [List.cons_append, List.dropWhile_cons, if_pos hp]
      exact ih h
    · simp [List.dropWhile_cons, hp]

theorem takeWhile_append_of_all {α : Type} {p : α → Bool} {l₁ l₂ : List α}
    (h : ∀ a ∈ l₁, p a = true) : (l₁ ++ l₂).takeWhile p = l₁ ++ l₂.takeWhile p := by
  induction l₁ with
  | nil => rfl
  | cons a t ih =>
    have ha : p a = true := h a (by simp)
    simp only [List.cons_append, List.takeWhile_cons, ha, if_pos]
    rw [ih fun b hb => h b (by simp [hb])]

theorem takeWhile_append_of_ex {α : Type} {p : α → Bool} {l₁ l₂ : List α}
    (h : ∃ a ∈ l₁, p a = false) : (l₁ ++ l₂).takeWhile p = l₁.takeWhile p := by
  induction l₁ with
  | nil => obtain ⟨a, ha, _⟩ := h; exact absurd ha (by simp)
  | cons a t ih =>
    by_cases hp : p a
    · simp only [List.cons_append, List.takeWhile_cons, hp, if_pos]
      obtain ⟨b, hb, hbp⟩ := h
      rcases List.mem_cons.mp hb with rfl | hbt
      · rw [hp] at hbp; cases hbp
      · rw [ih ⟨b, hbt, hbp⟩]
    · simp [List.takeWhile_cons, hp]

theorem takeWhile_eq_self_of_all {α : Type} {p : α → Bool} {l : List α}
    (h : ∀ a ∈ l, p a = true) : l.takeWhile p = l := by
  induction l with
  | nil => rfl
  | cons a t ih =>
    simp only [List.takeWhile_cons, h a (by simp), if_pos]
    rw [ih fun b hb => h b (by simp [hb])]

theorem mem_of_mem_takeWhile {α : Type} {p : α → Bool} {l : List α} {a : α}
    (h : a ∈ l.takeWhile p) : a ∈ l := by
  induction l with
  | nil => simp at h
  | cons b t ih =>
    rw [List.takeWhile_cons] at h
    by_cases hp : p b
    · rw [if_pos hp] at h
      rcases List.mem_cons.mp h with rfl | h'
      · simp
      · exact List.mem_cons.mpr (Or.inr (ih h'))
    · rw [if_neg hp] at h; simp at h

theorem pred_of_mem_takeWhile {α : Type} {p : α → Bool} {l : List α} {a : α}
    (h : a ∈ l.takeWhile p) : p a = true := by
  induction l with
  | nil => simp at h
  | cons b t ih =>
    rw [List.takeWhile_cons] at h
    by_cases hp : p b
    · rw [if_pos hp] at h
      rcases List.mem_cons.mp h with rfl | h'
      · exact hp
      · exact ih h'
    · rw [if_neg hp] at h; simp at h

theorem dropWhile_eq_nil_of_all {α : Type} {p : α → Bool} {l : List α}
    (h : ∀ a ∈ l, p a = true) : l.dropWhile p = [] := by
  induction l with
  | nil => rfl
  | cons a t ih =>
    simp only [List.dropWhile_cons, h a (by simp), if_pos]
    exact ih fun b hb => h b (by simp [hb])

theorem find?_cons_pos' {α : Type} (p : α → Bool) (a : α) (l : List α) (h : p a = true) :
    (a :: l).find? p = some a := by
  simp [List.find?, h]

theorem find?_cons_neg' {α : Type} (p : α → Bool) (a : α) (l : List α) (h : p a = false) :
    (a :: l).find? p = l.find? p := by
  simp [List.find?, h]

theorem filterMap_comp_map {α β γ : Type} (g : α → β) (f : β → Option γ) (l : List α) :
    (l.map g).filterMap f = l.filterMap (fun a => f (g a)) := by
  induction l with
  | nil => rfl
  | cons a t ih =>
    simp only [List.map_cons, List.filterMap_cons]
    cases f (g a) <;> simp [ih]

theorem filterMap_ite_eq_filter_map {α β : Type} (p : α → Bool) (f : α → β) (l : List α) :
    l.filterMap (fun a => if p a then some (f a) else none) = (l.filter p).map f := by
  induction l with
  | nil => rfl
  | cons a t ih =>
    by_cases hp : p a <;> simp [List.filterMap_cons, List.filter_cons, hp, ih]

theorem filterMap_ite_eq_filter {α : Type} (p : α → Bool) (l : List α) :
    l.filterMap (fun a => if p a then some a else none) = l.filter p := by
  induction l with
  | nil => rfl
  | cons a t ih =>
    by_cases hp : p a <;> simp [List.filterMap_cons, List.filter_cons, hp, ih]

theorem filterMap_ite_neg_eq_filter_map {α β : Type} (p : α → Bool) (f : α → β)
    (l : List α) :
    l.filterMap (fun a => if p a then none else some (f a)) =
      (l.filter (fun a => !p a)).map f := by
  induction l with
  | nil => rfl
  | cons a t ih =>
    by_cases hp : p a <;> simp [List.filterMap_cons, List.filter_cons, hp, ih]

/-! ## The trim and first-line equivalence -/

theorem splitLines_ne_nil (l : List Char) : splitLines l ≠ [] := by
  cases l with
  | nil => simp [splitLines]
  | cons c cs =>
    rw [splitLines]
    by_cases h : c = '\n'
    · simp [h]
    · rw [if_neg h]
      cases splitLines cs <;> simp

theorem splitLines_cons_of_ne (c : Char) (cs : List Char) (h : c ≠ '\n') :
    splitLines (c :: cs) =
      (c :: (splitLines cs).headD []) :: (splitLines cs).tail := by
  rw [splitLines, if_neg h]
  cases e : splitLines cs with
  | nil => exact absurd e (splitLines_ne_nil cs)
  | cons l ls => simp

theorem headD_splitLines (l : List Char) :
    (splitLines l).headD [] = l.takeWhile (fun c => !(c == '\n')) := by
  induction l with
  | nil => rfl
  | cons c cs ih =>
    by_cases h : c = '\n'
    · subst h
      simp [splitLines, List.takeWhile_cons]
    · rw [splitLines_cons_of_ne c cs h, List.takeWhile_cons]
      have hb : (!(c == '\n')) = true := by simp [h]
      simp only [hb, if_pos, List.headD_cons]
      rw [ih]

theorem dropTrailWs_append_of_all {x w : List Char}
    (h : ∀ c ∈ w, Char.isWhitespace c = true) : dropTrailWs (x ++ w) = dropTrailWs x := by
  unfold dropTrailWs
  rw [List.reverse_append,
    dropWhile_append_of_eq_nil (dropWhile_eq_nil_of_all (by
      intro a ha; exact h a (List.mem_reverse.mp ha)))]

theorem trimChars_append_of_all {x w : List Char}
    (h : ∀ c ∈ w, Char.isWhitespace c = true) : trimChars (x ++ w) = trimChars x := by
  unfold trimChars
  rw [dropTrailWs_append_of_all h]

theorem trimChars_of_all {l : List Char}
    (h : ∀ c ∈ l, Char.isWhitespace c = true) : trimChars l = [] := by
  have := trimChars_append_of_all (x := []) h
  simpa [trimChars, dropTrailWs] using this

theorem trimChars_cons_of_ws {c : Char} {l : List Char}
    (h : Char.isWhitespace c = true) : trimChars (c :: l) = trimChars l := by
  unfold trimChars dropTrailWs
  rw [List.reverse_cons]
  by_cases hd : l.reverse.dropWhile Char.isWhitespace = []
  · rw [dropWhile_append_of_eq_nil hd, hd]
    simp [List.dropWhile_cons, h]
  · rw [dropWhile_append_of_ne_nil hd, List.reverse_append]
    simp [List.dropWhile_cons, h]

/-- The whole string decomposes as its trailing-whitespace-free part
followed by an all-whitespace suffix. -/
theorem dropTrailWs_decomp (s : List Char) :
    ∃ w, s = dropTrailWs s ++ w ∧ ∀ c ∈ w, Char.isWhitespace c = true := by
  refine ⟨(s.reverse.takeWhile Char.isWhitespace).reverse, ?_, ?_⟩
  · unfold dropTrailWs
    rw [← List.reverse_append, List.takeWhile_append_dropWhile, List.reverse_reverse]
  · intro c hc
    exact pred_of_mem_takeWhile (List.mem_reverse.mp hc)

theorem canonFirstLine_dropTrailWs (s : List Char) :
    canonFirstLine (dropTrailWs s) = canonFirstLine s := by
  obtain ⟨w, hs, hw⟩ := dropTrailWs_decomp s
  conv_rhs => rw [hs]
  set t := dropTrailWs s with ht
  unfold canonFirstLine
  by_cases hdw : t.dropWhile Char.isWhitespace = []
  · rw [hdw, dropWhile_append_of_eq_nil hdw, dropWhile_eq_nil_of_all hw]
  · rw [dropWhile_append_of_ne_nil hdw]
    set t₁ := t.dropWhile Char.isWhitespace with ht₁
    by_cases hnl : ∃ a ∈ t₁, a = '\n'
    · obtain ⟨a, ha, rfl⟩ := hnl
      rw [takeWhile_append_of_ex ⟨_, ha, by simp⟩]
    · push_neg at hnl
      have hall : ∀ a ∈ t₁, (!(a == '\n')) = true := by
        intro a ha; simpa using hnl a ha
      rw [takeWhile_append_of_all hall, takeWhile_eq_self_of_all hall]
      exact (trimChars_append_of_all (fun c hc =>
        hw c (mem_of_mem_takeWhile hc))).symm

/-- The value the code computes for the header check, rewritten to the
canonical first-line form. -/
theorem code_first_line_eq_canon (body : List Char) :
    trimChars ((splitLines (trimChars body)).headD []) = canonFirstLine body := by
  rw [headD_splitLines]
  show trimChars (((dropTrailWs body).dropWhile Char.isWhitespace).takeWhile _) =
    canonFirstLine body
  rw [← canonFirstLine_dropTrailWs body]
  rfl

/-- The value the spec describes, first non-blank line then trim, rewritten
to the canonical first-line form. -/
theorem spec_first_line_eq_canon (body : List Char) :
    (match firstNonBlankLine body with
      | some l => trimChars l
      | none => []) = canonFirstLine body := by
  induction body with
  | nil =>
    simp [firstNonBlankLine, splitLines, lineIsBlank, canonFirstLine,
      trimChars, dropTrailWs]
  | cons c cs ih =>
    by_cases hn : c = '\n'
    · subst hn
      have h1 : firstNonBlankLine ('\n' :: cs) = firstNonBlankLine cs := by
        simp [firstNonBlankLine, splitLines, lineIsBlank]
      have h2 : canonFirstLine ('\n' :: cs) = canonFirstLine cs := by
        unfold canonFirstLine
        rw [List.dropWhile_cons_of_pos (by decide)]
      rw [h1, h2]; exact ih
    · by_cases hws : Char.isWhitespace c
      · have hhd : firstNonBlankLine (c :: cs) =
            ((c :: (splitLines cs).headD []) :: (splitLines cs).tail).find?
              (fun l => !lineIsBlank l) := by
          rw [firstNonBlankLine, splitLines_cons_of_ne c cs hn]
        have hblank : lineIsBlank (c :: (splitLines cs).headD []) =
            lineIsBlank ((splitLines cs).headD []) := by
          simp [lineIsBlank, hws]
        have hcanon : canonFirstLine (c :: cs) = canonFirstLine cs := by
          unfold canonFirstLine
          rw [List.dropWhile_cons_of_pos hws]
        rw [hcanon, ← ih]
        rw [hhd]
        have hsplit : firstNonBlankLine cs =
            ((splitLines cs).headD [] :: (splitLines cs).tail).find?
              (fun l => !lineIsBlank l) := by
          rw [firstNonBlankLine]
          congr 1
          cases e : splitLines cs with
          | nil => exact absurd e (splitLines_ne_nil cs)
          | cons l ls => simp
        rw [hsplit]
        by_cases hb : lineIsBlank ((splitLines cs).headD [])
        · rw [find?_cons_neg' (fun l => !lineIsBlank l) (c :: (splitLines cs).headD [])
              ((splitLines cs).tail)
              (by show (!lineIsBlank (c :: (splitLines cs).headD [])) = false
                  rw [hblank, hb]; rfl),
            find?_cons_neg' (fun l => !lineIsBlank l) ((splitLines cs).headD [])
              ((splitLines cs).tail)
              (by show (!lineIsBlank ((splitLines cs).headD [])) = false
                  rw [hb]; rfl)]
        · have hbf : lineIsBlank ((splitLines cs).headD []) = false := by
            simpa using hb
          rw [find?_cons_pos' (fun l => !lineIsBlank l) (c :: (splitLines cs).headD [])
              ((splitLines cs).tail)
              (by show (!lineIsBlank (c :: (splitLines cs).headD [])) = true
                  rw [hblank, hbf]; rfl),
            find?_cons_pos' (fun l => !lineIsBlank l) ((splitLines cs).headD [])
              ((splitLines cs).tail)
              (by show (!lineIsBlank ((splitLines cs).headD [])) = true
                  rw [hbf]; rfl)]
          exact trimChars_cons_of_ws hws
      · have hhd : splitLines (c :: cs) =
            (c :: (splitLines cs).headD []) :: (splitLines cs).tail :=
          splitLines_cons_of_ne c cs hn
        have hcf : c.isWhitespace = false := by simpa using hws
        rw [firstNonBlankLine, hhd,
          find?_cons_pos' (fun l => !lineIsBlank l) (c :: (splitLines cs).headD [])
            ((splitLines cs).tail)
            (by show (!lineIsBlank (c :: (splitLines cs).headD [])) = true
                simp [lineIsBlank, hcf])]
        show trimChars (c :: (splitLines cs).headD []) = canonFirstLine (c :: cs)
        rw [headD_splitLines]
        unfold canonFirstLine
        rw [List.dropWhile_cons_of_neg (by simpa using hws), List.takeWhile_cons,
          if_pos (by simp [hn])]

/-! ## The prober verdict -/

/-- The Strategy B verdict on a delivered response is positive exactly when
the status is a success, the body is long enough and the first non-blank
line trims to the marker. -/
theorem processResponse_true_iff (st : Nat) (body : List Char) :
    processResponse st body = true ↔
      ((200 ≤ st ∧ st < 300) ∧ (body ≠ [] ∧ MIN_CONTENT_LENGTH ≤ body.length) ∧
        (firstNonBlankLine body).map trimChars = some extm3uMarker) := by
  have hmarker : extm3uMarker ≠ ([] : List Char) := by decide
  have hcanon : trimChars ((splitLines (trimChars body)).headD []) = canonFirstLine body :=
    code_first_line_eq_canon body
  have hspec : (match firstNonBlankLine body with
      | some l => trimChars l
      | none => []) = canonFirstLine body := spec_first_line_eq_canon body
  unfold processResponse
  by_cases h1 : st < 200 ∨ 300 ≤ st
  · rw [if_pos h1]
    constructor
    · intro hF; exact absurd hF (by decide)
    · rintro ⟨⟨h2, h3⟩, -⟩; exfalso; omega
  · rw [if_neg h1]
    push_neg at h1
    by_cases h2 : body = [] ∨ body.length < MIN_CONTENT_LENGTH
    · rw [if_pos h2]
      constructor
      · intro hF; exact absurd hF (by decide)
      · rintro ⟨-, ⟨h3, h4⟩, -⟩
        exfalso
        rcases h2 with h2 | h2
        · exact h3 h2
        · omega
    · rw [if_neg h2]
      push_neg at h2
      have hlen : splitLines (trimChars body) ≠ [] := splitLines_ne_nil _
      by_cases h3 : trimChars ((splitLines (trimChars body)).headD []) = extm3uMarker
      · rw [if_neg (by
          rintro (hz | hne)
          · exact hlen (List.length_eq_zero.mp hz)
          · exact hne h3)]
        refine iff_of_true rfl ⟨⟨h1.1, h1.2⟩, ⟨h2.1, by omega⟩, ?_⟩
        rw [hcanon] at h3
        cases e : firstNonBlankLine body with
        | none =>
          have hspec' : ([] : List Char) = canonFirstLine body := by
            rw [e] at hspec; exact hspec
          rw [← hspec'] at h3
          exact absurd h3.symm hmarker
        | some l =>
          have hspec' : trimChars l = canonFirstLine body := by
            rw [e] at hspec; exact hspec
          show some (trimChars l) = some extm3uMarker
          rw [hspec', h3]
      · rw [if_pos (Or.inr h3)]
        constructor
        · intro hF; exact absurd hF (by decide)
        · rintro ⟨-, -, h4⟩
          exfalso
          apply h3
          rw [hcanon]
          cases e : firstNonBlankLine body with
          | none => rw [e] at h4; simp at h4
          | some l =>
            have hspec' : trimChars l = canonFirstLine body := by
              rw [e] at hspec; exact hspec
            rw [e] at h4
            have h4' : trimChars l = extm3uMarker := by
              have : some (trimChars l) = some extm3uMarker := h4
              exact Option.some_inj.mp this
            rw [← hspec', h4']

/-! ## The fan-out and the renderers -/

/-- Draining the completion events in input order is the same as filtering
the catalog directly. -/
theorem filterMap_range_get {α β : Type} (l : List α) (g : α → Option β) :
    (List.range l.length).filterMap (fun i => (l.get? i).bind g) = l.filterMap g := by
  induction l with
  | nil => rfl
  | cons a t ih =>
    rw [List.length_cons, List.range_succ_eq_map, List.filterMap_cons, filterMap_comp_map]
    have h0 : ((a :: t).get? 0).bind g = g a := rfl
    have hf : (fun i => ((a :: t).get? (Nat.succ i)).bind g) =
        (fun i => (t.get? i).bind g) := rfl
    rw [h0, hf, ih, List.filterMap_cons]

/-- A list with no newline is a single segment. -/
theorem splitLines_of_no_nl (a : List Char) (h : '\n' ∉ a) : splitLines a = [a] := by
  induction a with
  | nil => rfl
  | cons c cs ih =>
    have hc : c ≠ '\n' := fun e => h (e ▸ List.mem_cons_self c cs)
    rw [splitLines, if_neg hc, ih (fun hm => h (List.mem_cons_of_mem c hm))]

/-- Splitting at an explicit newline after a newline-free chunk. -/
theorem splitLines_append_of_no_nl (a b : List Char) (h : '\n' ∉ a) :
    splitLines (a ++ '\n' :: b) = a :: splitLines b := by
  induction a with
  | nil => simp [splitLines]
  | cons c cs ih =>
    have hc : c ≠ '\n' := fun e => h (e ▸ List.mem_cons_self c cs)
    rw [List.cons_append, splitLines, if_neg hc,
      ih (fun hm => h (List.mem_cons_of_mem c hm))]

/-- Lines of the joined playlist entries: one info line and one url line
per entry, in order, with no trailing blank line. -/
theorem splitLines_joined_entries (entries : List Channel)
    (h : ∀ c ∈ entries, '\n' ∉ extinfLine c ∧ '\n' ∉ jsValDisplay c.url)
    (hne : entries ≠ []) :
    splitLines (joinSep ("\n".toList) (entries.map generarLineaM3U)) =
      entries.flatMap (fun c => [extinfLine c, jsValDisplay c.url]) := by
  induction entries with
  | nil => exact absurd rfl hne
  | cons e rest ih =>
    obtain ⟨he1, he2⟩ := h e (List.mem_cons_self e rest)
    cases rest with
    | nil =>
      show splitLines (generarLineaM3U e) = _
      rw [generarLineaM3U, splitLines_append_of_no_nl _ _ he1,
        splitLines_of_no_nl _ he2]
      rfl
    | cons e' rest' =>
      have hjoin : joinSep ("\n".toList) ((e :: e' :: rest').map generarLineaM3U) =
          generarLineaM3U e ++ '\n' ::
            joinSep ("\n".toList) ((e' :: rest').map generarLineaM3U) := by
        show joinSep _ (generarLineaM3U e :: generarLineaM3U e' :: _) = _
        rw [joinSep]
        simp [List.append_assoc]
      rw [hjoin, generarLineaM3U, List.append_assoc, List.cons_append,
        splitLines_append_of_no_nl _ _ he1]
      show extinfLine e :: splitLines (jsValDisplay e.url ++ '\n' :: _) = _
      rw [splitLines_append_of_no_nl _ _ he2,
        ih (fun c hc => h c (List.mem_cons_of_mem e hc)) (by simp)]
      rfl

/-- Lines of the complete rendered playlist file. -/
theorem renderM3U_lines (entries : List Channel)
    (h : ∀ c ∈ entries, '\n' ∉ extinfLine c ∧ '\n' ∉ jsValDisplay c.url) :
    (splitLines (renderM3U entries)).headD [] = "#EXTM3U".toList ∧
      (entries ≠ [] → splitLines (renderM3U entries) =
        "#EXTM3U".toList :: entries.flatMap (fun c => [extinfLine c, jsValDisplay c.url])) := by
  have hhdr : renderM3U entries = "#EXTM3U".toList ++ '\n' ::
      joinSep ("\n".toList) (entries.map generarLineaM3U) := by
    rw [renderM3U]
    rfl
  have hsplit : splitLines (renderM3U entries) = "#EXTM3U".toList ::
      splitLines (joinSep ("\n".toList) (entries.map generarLineaM3U)) := by
    rw [hhdr, splitLines_append_of_no_nl _ _ (by decide)]
  constructor
  · rw [hsplit]; rfl
  · intro hne
    rw [hsplit, splitLines_joined_entries entries h hne]

/-- Every record collected into canalesM3U comes from the catalog. -/
theorem mem_of_mem_pushedM3U {canales : List Channel} {net : List Char → NetOutcome}
    {order : List Nat} {c : Channel} (h : c ∈ pushedM3U canales net order) :
    c ∈ canales := by
  rw [pushedM3U, List.mem_filterMap] at h
  obtain ⟨i, -, hi⟩ := h
  cases hg : canales.get? i with
  | none => rw [hg] at hi; simp at hi
  | some canal =>
    rw [hg] at hi
    have hi' : (if verdictOf net canal = true then some canal else none) = some c := hi
    by_cases hv : verdictOf net canal
    · rw [if_pos hv] at hi'
      exact (Option.some_inj.mp hi') ▸ List.get?_mem hg
    · rw [if_neg hv] at hi'; simp at hi'

/-- Draining the queue in input order gives the catalog-order down log. -/
theorem pushedDownLog_range (canales : List Channel) (net : List Char → NetOutcome)
    (ts : List Char) :
    pushedDownLog canales net ts (List.range canales.length) =
      (canales.filter (fun c => !verdictOf net c)).map (mkDownEntry ts) := by
  rw [pushedDownLog]
  rw [filterMap_range_get canales
    (fun canal => if verdictOf net canal then none else some (mkDownEntry ts canal)),
    filterMap_ite_neg_eq_filter_map (fun canal => verdictOf net canal) (mkDownEntry ts)]

/-- Draining the queue in input order gives the catalog-order active list. -/
theorem pushedM3U_range (canales : List Channel) (net : List Char → NetOutcome) :
    pushedM3U canales net (List.range canales.length) =
      canales.filter (fun c => verdictOf net c) := by
  rw [pushedM3U]
  rw [filterMap_range_get canales
    (fun canal => if verdictOf net canal then some canal else none),
    filterMap_ite_eq_filter (fun canal => verdictOf net canal)]

/-! ## The claims -/

/-- C1: for every catalog the annotated output of analizarCanales has the
same length as the input, the identifiers appear in the same positions and
order, and the annotated sequence does not depend on the completion order
of the concurrent probes. -/
theorem C1_annotated_order_preserved (canales : List Channel)
    (net : List Char → NetOutcome) (ts : List Char) (order order' : List Nat) :
    (analizarCanales (.ok canales) net ts order).canalesActualizados.length
        = canales.length
    ∧ (analizarCanales (.ok canales) net ts order).canalesActualizados.map Channel.id
        = canales.map Channel.id
    ∧ (analizarCanales (.ok canales) net ts order).canalesActualizados
        = (analizarCanales (.ok canales) net ts order').canalesActualizados := by
  refine ⟨?_, ?_, rfl⟩
  · show (canalesActualizadosOf canales net).length = canales.length
    rw [canalesActualizadosOf, List.length_map]
  · show (canalesActualizadosOf canales net).map Channel.id = canales.map Channel.id
    rw [canalesActualizadosOf, List.map_map]
    rfl

/-- C2: under Strategy B a probe whose GET completes with a response is
positive exactly when all three hold: the status is in the range 200 to
299, the body is non-empty with at least MIN_CONTENT_LENGTH characters,
and the first non-blank line of the body trims to the playlist marker. -/
theorem C2_strategyB_verdict (u : List Char) (net : List Char → NetOutcome)
    (st : Nat) (body : List Char) (hu : u ≠ []) (hnet : net u = .response st body) :
    checkStreamStatus (.vStr u) net = true ↔
      ((200 ≤ st ∧ st < 300) ∧ (body ≠ [] ∧ MIN_CONTENT_LENGTH ≤ body.length) ∧
        (firstNonBlankLine body).map trimChars = some extm3uMarker) := by
  have hcall : checkStreamStatus (.vStr u) net = processResponse st body := by
    show (if u = [] then false
      else match tryBlock net u with | .ok b => b | .error _ => false) = _
    rw [if_neg hu, tryBlock, hnet]
  rw [hcall]
  exact processResponse_true_iff st body

/-- Witness for C2 at a concrete URL and a healthy response. -/
theorem C2_strategyB_verdict_witness :
    checkStreamStatus (.vStr goodUrl) goodNet = true :=
  (C2_strategyB_verdict goodUrl goodNet 200 goodBody (by decide) rfl).mpr (by decide)

/-- C3 counterexample: on the structurally invalid non-empty string
"not a url" the guard passes and the string is handed to the HTTP client,
so a network call is attempted, refuting the claim that no network call
happens for such inputs (the verdict is nonetheless negative). -/
theorem C3_counterexample :
    (checkStreamStatusI (.vStr "not a url".toList) invalidUrlNet).2 = true
    ∧ (checkStreamStatusI (.vStr "not a url".toList) invalidUrlNet).1 = false := by
  constructor <;> decide

/-- C3 amended: null, non-string and empty-string inputs yield a negative
verdict immediately with no network call attempted; a non-empty string
that does not parse as a URL is passed to the HTTP client, whose thrown
error is caught and converted to a negative verdict. -/
theorem C3_guard_behaviour (net : List Char → NetOutcome) :
    checkStreamStatusI .vNull net = (false, false)
    ∧ checkStreamStatusI (.vStr []) net = (false, false)
    ∧ (∀ n : Int, checkStreamStatusI (.vNum n) net = (false, false))
    ∧ (∀ u msg, u ≠ [] → net u = .transportError msg →
        checkStreamStatusI (.vStr u) net = (false, true)) := by
  refine ⟨rfl, rfl, fun n => rfl, fun u msg hu hm => ?_⟩
  show (if u = [] then ((false : Bool), (false : Bool))
    else match tryBlock net u with | .ok b => (b, true) | .error _ => (false, true)) = _
  rw [if_neg hu, tryBlock, hm]

/-- Witness for C3 amended at a concrete invalid URL string. -/
theorem C3_guard_behaviour_witness :
    checkStreamStatusI (.vStr "htp:/bad".toList) invalidUrlNet = (false, true) :=
  (C3_guard_behaviour invalidUrlNet).2.2.2 _ _ (by decide) rfl

/-- C4: the prober never lets an exception escape: for every url and
network outcome the caller observes an ok boolean, and transport errors,
guard rejections and non-2xx statuses all come back as a negative verdict,
so one channel failing can not abort the other probes. -/
theorem C4_never_throws (url : JsValue) (net : List Char → NetOutcome) :
    (∃ b : Bool, checkStreamStatusE url net = Except.ok b)
    ∧ (∀ u msg, url = .vStr u → net u = .transportError msg →
        checkStreamStatus url net = false)
    ∧ (∀ u st body, url = .vStr u → net u = .response st body →
        st < 200 ∨ 300 ≤ st → checkStreamStatus url net = false)
    ∧ (url = .vNull → checkStreamStatus url net = false) := by
  refine ⟨?_, ?_, ?_, ?_⟩
  · cases url with
    | vNull => exact ⟨false, rfl⟩
    | vNum n => exact ⟨false, rfl⟩
    | vStr u =>
      by_cases hu : u = []
      · exact ⟨false, by
          show (if u = [] then Except.ok false else _) = _
          rw [if_pos hu]⟩
      · cases ht : tryBlock net u with
        | ok b =>
          exact ⟨b, by
            show (if u = [] then Except.ok false
              else match tryBlock net u with
                | .ok b => Except.ok b
                | .error _ => Except.ok false) = _
            rw [if_neg hu, ht]⟩
        | error e =>
          exact ⟨false, by
            show (if u = [] then Except.ok false
              else match tryBlock net u with
                | .ok b => Except.ok b
                | .error _ => Except.ok false) = _
            rw [if_neg hu, ht]⟩
  · rintro u msg rfl hm
    by_cases hu : u = []
    · show (if u = [] then false else _) = false
      rw [if_pos hu]
    · show (if u = [] then false
        else match tryBlock net u with | .ok b => b | .error _ => false) = false
      rw [if_neg hu, tryBlock, hm]
  · rintro u st body rfl hm hst
    by_cases hu : u = []
    · show (if u = [] then false else _) = false
      rw [if_pos hu]
    · show (if u = [] then false
        else match tryBlock net u with | .ok b => b | .error _ => false) = false
      rw [if_neg hu, tryBlock, hm]
      show processResponse st body = false
      rw [processResponse, if_pos hst]
  · rintro rfl; rfl

/-- Witness for C4 at a concrete timeout. -/
theorem C4_never_throws_witness :
    checkStreamStatus (.vStr "http://example.com/a.m3u8".toList)
      (fun _ => .transportError "ETIMEDOUT".toList) = false :=
  (C4_never_throws (.vStr "http://example.com/a.m3u8".toList)
    (fun _ => .transportError "ETIMEDOUT".toList)).2.1 _ _ rfl rfl

/-- C5 counterexample: with both channels down and the second probe
completing first, the down-log holds ids 2 then 1 while the negatively
flagged channels occur in catalog order 1 then 2, so the down entries are
not the catalog-order filter and completion order does leak. -/
theorem C5_counterexample :
    (List.range ([ch1, ch2] : List Channel).length).Perm [1, 0]
    ∧ (analizarCanales (.ok [ch1, ch2]) downNet tsLit [1, 0]).canalesCaidosLog.map
        DownEntry.id = [2, 1]
    ∧ ([ch1, ch2].filter (fun c => !verdictOf downNet c)).map Channel.id = [1, 2]
    ∧ (analizarCanales (.ok [ch1, ch2]) downNet tsLit [1, 0]).canalesCaidosLog ≠
        ([ch1, ch2].filter (fun c => !verdictOf downNet c)).map (mkDownEntry tsLit) := by
  refine ⟨by decide, by decide, by decide, by decide⟩

/-- C5 amended: the down-log and the collected active-channel list contain
exactly the negatively and positively flagged channels of the catalog (as
multisets) but in probe completion order; only when probes complete in
catalog order do they equal the catalog-order filters. -/
theorem C5_push_order (canales : List Channel) (net : List Char → NetOutcome)
    (ts : List Char) (order : List Nat)
    (hperm : order.Perm (List.range canales.length)) :
    (pushedDownLog canales net ts order).Perm
        ((canales.filter (fun c => !verdictOf net c)).map (mkDownEntry ts))
    ∧ (pushedM3U canales net order).Perm (canales.filter (fun c => verdictOf net c))
    ∧ pushedDownLog canales net ts (List.range canales.length)
        = (canales.filter (fun c => !verdictOf net c)).map (mkDownEntry ts)
    ∧ pushedM3U canales net (List.range canales.length)
        = canales.filter (fun c => verdictOf net c) := by
  refine ⟨?_, ?_, pushedDownLog_range canales net ts, pushedM3U_range canales net⟩
  · have hp := hperm.filterMap (fun i => (canales.get? i).bind (fun canal =>
      if verdictOf net canal then none else some (mkDownEntry ts canal)))
    rw [← pushedDownLog_range canales net ts]
    exact hp
  · have hp := hperm.filterMap (fun i => (canales.get? i).bind (fun canal =>
      if verdictOf net canal then some canal else none))
    rw [← pushedM3U_range canales net]
    exact hp

/-- Witness for C5 amended at the concrete two-channel catalog with the
completion order reversed. -/
theorem C5_push_order_witness :
    (pushedDownLog [ch1, ch2] downNet tsLit [1, 0]).Perm
      (([ch1, ch2].filter (fun c => !verdictOf downNet c)).map (mkDownEntry tsLit)) :=
  (C5_push_order [ch1, ch2] downNet tsLit [1, 0] (by decide)).1

/-- C6: evaluation of the run at the failing input: a channel probed
active whose record has no pre-existing active field lands in neither
artifact: the down-log is empty and the written playlist is only the
header line, against the exactly-one-artifact claim. -/
theorem C6_neither_artifact :
    verdictOf goodNet ch1 = true
    ∧ (analizarCanales (.ok [ch1]) goodNet tsLit [0]).canalesCaidosLog = []
    ∧ writtenM3UEntries ((analizarCanales (.ok [ch1]) goodNet tsLit [0]).canalesM3U) = []
    ∧ (analizarCanales (.ok [ch1]) goodNet tsLit [0]).m3uContent = some m3uHeader := by
  refine ⟨by decide, by decide, by decide, by decide⟩

/-- C7: the annotation merges only the fresh boolean into active:
restoring the original active field gives back the input record, and id,
title, url, icon and all extra fields pass through unchanged. -/
theorem C7_annotation_frame (canal : Channel) (isActive : Bool) :
    { annotateChannel canal isActive with active := canal.active } = canal
    ∧ (annotateChannel canal isActive).active = some isActive
    ∧ (annotateChannel canal isActive).id = canal.id
    ∧ (annotateChannel canal isActive).title = canal.title
    ∧ (annotateChannel canal isActive).url = canal.url
    ∧ (annotateChannel canal isActive).icon = canal.icon
    ∧ (annotateChannel canal isActive).extra = canal.extra :=
  ⟨rfl, rfl, rfl, rfl, rfl, rfl, rfl⟩

/-- C8: when reading or parsing the catalog store fails the run reports
the fatal error and stops: no probe is launched, no sink receives content,
and nothing else is observable. -/
theorem C8_fatal_read (msg : List Char) (net : List Char → NetOutcome)
    (ts : List Char) (order : List Nat) :
    analizarCanales (.failure msg) net ts order =
      { canalesActualizados := [], canalesCaidosLog := [], canalesM3U := [],
        probesLaunched := 0, jsonWritten := false, logContent := none,
        m3uContent := none, fatalError := true } := rfl

/-- C9: whenever the playlist file is written its first line is exactly
the magic header, and when entries exist (fields newline-free) the rest is
one info line followed by one url line per entry, joined by single
newlines with no trailing divider. -/
theorem C9_playlist_format (canales : List Channel) (net : List Char → NetOutcome)
    (ts : List Char) (order : List Nat) (content : List Char)
    (hc : (analizarCanales (.ok canales) net ts order).m3uContent = some content)
    (h : ∀ c ∈ writtenM3UEntries (pushedM3U canales net order),
        '\n' ∉ extinfLine c ∧ '\n' ∉ jsValDisplay c.url) :
    (splitLines content).headD [] = "#EXTM3U".toList
    ∧ (writtenM3UEntries (pushedM3U canales net order) ≠ [] →
        splitLines content = "#EXTM3U".toList ::
          (writtenM3UEntries (pushedM3U canales net order)).flatMap
            (fun c => [extinfLine c, jsValDisplay c.url])) := by
  have hc' : (if 0 < (pushedM3U canales net order).length
      then some (renderM3U (writtenM3UEntries (pushedM3U canales net order)))
      else none) = some content := hc
  by_cases hlen : 0 < (pushedM3U canales net order).length
  · rw [if_pos hlen] at hc'
    have hcontent : renderM3U (writtenM3UEntries (pushedM3U canales net order)) =
        content := Option.some_inj.mp hc'
    rw [← hcontent]
    exact renderM3U_lines _ h
  · rw [if_neg hlen] at hc'
    exact absurd hc' (by simp)

/-- Witness for C9 at a one-channel catalog whose record carries active
true, so the playlist is written with one entry pair. -/
theorem C9_playlist_format_witness :
    (splitLines (renderM3U (writtenM3UEntries (pushedM3U [m3uChan] goodNet [0])))).headD []
      = "#EXTM3U".toList
    ∧ (writtenM3UEntries (pushedM3U [m3uChan] goodNet [0]) ≠ [] →
        splitLines (renderM3U (writtenM3UEntries (pushedM3U [m3uChan] goodNet [0])))
          = "#EXTM3U".toList ::
            (writtenM3UEntries (pushedM3U [m3uChan] goodNet [0])).flatMap
              (fun c => [extinfLine c, jsValDisplay c.url])) :=
  C9_playlist_format [m3uChan] goodNet tsLit [0]
    (renderM3U (writtenM3UEntries (pushedM3U [m3uChan] goodNet [0])))
    (by decide) (by decide)

/-- C10: the playlist filter reads the pre-existing active field of the
input records, so on a catalog where no record already carries active true
the written entry list is empty and any written playlist file is just the
header line, even when probes succeeded this run. -/
theorem C10_preexisting_active_filter (canales : List Channel)
    (net : List Char → NetOutcome) (ts : List Char) (order : List Nat)
    (h : ∀ c ∈ canales, c.active ≠ some true) :
    writtenM3UEntries ((analizarCanales (.ok canales) net ts order).canalesM3U) = []
    ∧ ((analizarCanales (.ok canales) net ts order).m3uContent = none
       ∨ (analizarCanales (.ok canales) net ts order).m3uContent = some m3uHeader) := by
  have hfilter : writtenM3UEntries (pushedM3U canales net order) = [] := by
    rw [writtenM3UEntries, List.filter_eq_nil_iff]
    intro c hc
    have hne := h c (mem_of_mem_pushedM3U hc)
    cases e : c.active with
    | none => decide
    | some b =>
      cases b with
      | false => decide
      | true => exact absurd e hne
  refine ⟨hfilter, ?_⟩
  by_cases hlen : 0 < (pushedM3U canales net order).length
  · right
    show (if 0 < (pushedM3U canales net order).length
      then some (renderM3U (writtenM3UEntries (pushedM3U canales net order)))
      else none) = some m3uHeader
    rw [if_pos hlen, hfilter]
    show some (renderM3U []) = some m3uHeader
    decide
  · left
    show (if 0 < (pushedM3U canales net order).length
      then some (renderM3U (writtenM3UEntries (pushedM3U canales net order)))
      else none) = none
    rw [if_neg hlen]

/-- Witness for C10: a successful probe on a record without a pre-existing
active field still leaves the written playlist at just the header. -/
theorem C10_preexisting_active_filter_witness :
    writtenM3UEntries ((analizarCanales (.ok [ch2]) goodNet tsLit [0]).canalesM3U) = []
    ∧ ((analizarCanales (.ok [ch2]) goodNet tsLit [0]).m3uContent = none
       ∨ (analizarCanales (.ok [ch2]) goodNet tsLit [0]).m3uContent = some m3uHeader) :=
  C10_preexisting_active_filter [ch2] goodNet tsLit [0] (by decide)

end Canales
